import Mathlib

/-!
# Verification of the AusarScrubber document-boundary scrubbing pipeline

Shallow embedding of `src/text/ausarScrubber.py` (class `AusarScrubber`).
Text is modelled as `List Char`; Python string operations (`find`, `rfind`,
`split`, slicing, `re.sub` with the concrete patterns used by the source)
are translated faithfully for ASCII text: Python's Unicode-aware character
classes (`\d`, `\s`, `str.isalpha`, `str.lower`) are modelled by their ASCII
restrictions, which agree with Python on all ASCII inputs.
Fallible code (Python indexing that can raise `IndexError`) returns `Option`.
-/

set_option autoImplicit false

namespace Scrub

/-- The configured section separator `self._separator = '===='`. -/
def separator : List Char := ['=', '=', '=', '=']

/-- The configured front stopstrings `self._stopstrings_front`. -/
def stopstringsFront : List (List Char) :=
  ["cited".data, "license".data, "credited".data, "lawful purpose".data]

/-- The first configured body stopstring. -/
def sbAck : List Char := "acknowledgements".data

/-- The second configured body stopstring. -/
def sbSup : List Char := "supporting information".data

/-- The configured body stopstrings `self._stopstrings_body`. -/
def stopstringsBody : List (List Char) := [sbAck, sbSup]

/-- ASCII model of Python `str.lower()`. -/
def lowerList (t : List Char) : List Char := t.map Char.toLower

/-- ASCII model of the regex class `\s` (Python whitespace). -/
def isPySpace (c : Char) : Bool :=
  c == ' ' || c == '\t' || c == '\n' || c == '\r' || c == '\x0b' || c == '\x0c'

/-- First index at which `s` occurs in `t` (Python `str.find` without the -1). -/
def findSubNat (s : List Char) : List Char → Option Nat
  | [] => if s.isPrefixOf ([] : List Char) then some 0 else none
  | c :: cs =>
    if s.isPrefixOf (c :: cs) then some 0
    else (findSubNat s cs).map (· + 1)

/-- Python `str.find`: first occurrence index, `-1` when absent. -/
def pyFind (t s : List Char) : Int :=
  match findSubNat s t with
  | some i => (i : Int)
  | none => -1

/-- Last index at which `s` occurs in `t` (Python `str.rfind` without the -1). -/
def rfindSubNat (s t : List Char) : Option Nat :=
  ((List.range (t.length + 1)).filter (fun i => s.isPrefixOf (t.drop i))).getLast?

/-- Python `str.rfind`: last occurrence index, `-1` when absent. -/
def pyRFind (t s : List Char) : Int :=
  match rfindSubNat s t with
  | some i => (i : Int)
  | none => -1

/-- Python `max` over a list of ints (the source applies it to a nonempty
list comprehension; the `[]` case is unreachable there). -/
def maxIntList : List Int → Int
  | [] => -1
  | x :: xs => xs.foldl max x

/-- Python `min` over a list of ints (applied to a nonempty list in the source). -/
def minIntList : List Int → Int
  | [] => 0
  | x :: xs => xs.foldl min x

/-- Python string indexing `t[i]`: wraps negative indices, raises
(`none`) when out of range. -/
def pyIndex (t : List Char) (i : Int) : Option Char :=
  if 0 ≤ i then
    if i < (t.length : Int) then some (t.getD i.toNat ' ') else none
  else
    if -(t.length : Int) ≤ i then some (t.getD (t.length - (-i).toNat) ' ') else none

/-- Python slice `t[min(len(t), max(j, 0)):]` used at the end of `cut_head`. -/
def tailFrom (t : List Char) (j : Int) : List Char :=
  t.drop (Int.toNat (min (t.length : Int) (max j 0)))

/--
`AusarScrubber.cut_head` (lines 46-67 of the source), including its fallible
index accesses:

    start_idx = max([text.lower().rfind(s) + len(s)*(text.lower().rfind(s)!=-1)
                     for s in stopstrings])
    if start_idx > 0:
        if not text[start_idx+1].isalpha():
            if not len(text) >= start_idx + 2 and text[start_idx+2].isalpha():
                start_idx += 2
            else:
                start_idx += 1
    return text[min(len(text), max(start_idx, 0)):]

`none` models an uncaught `IndexError` in the boundary-cleanup accesses.
-/
def cut_head (t : List Char) (ss : List (List Char)) : Option (List Char) :=
  let si : Int := maxIntList (ss.map (fun s =>
    pyRFind (lowerList t) s +
      (s.length : Int) * (if pyRFind (lowerList t) s = -1 then 0 else 1)))
  if si > 0 then
    match pyIndex t (si + 1) with
    | none => none
    | some c =>
      if !c.isAlpha then
        if !((t.length : Int) ≥ si + 2) then
          match pyIndex t (si + 2) with
          | none => none
          | some c2 =>
            if c2.isAlpha then some (tailFrom t (si + 2))
            else some (tailFrom t (si + 1))
        else some (tailFrom t (si + 1))
      else some (tailFrom t si)
  else some (tailFrom t si)

/--
`AusarScrubber.cut_tail` (lines 69-83 of the source):

    end_idx = min([text.lower().find(s) + (len(text)+1)*(text.lower().find(s)==-1)
                   for s in stopstrings])
    return text[:end_idx]
-/
def cut_tail (t : List Char) (ss : List (List Char)) : List Char :=
  let ei : Int := minIntList (ss.map (fun s =>
    pyFind (lowerList t) s +
      ((t.length : Int) + 1) * (if pyFind (lowerList t) s = -1 then 1 else 0)))
  t.take (Int.toNat ei)

/-- Whether `cs` (the text after a `[` or `(`) continues with a nonempty
digit run followed by `]`. -/
def bracketMatchAt (cs : List Char) : Bool :=
  let ds := cs.takeWhile Char.isDigit
  !ds.isEmpty && (cs.drop ds.length).head? == some ']'

/-- Whether `cs` (the text after a `(`) continues with a nonempty digit run
followed by `)`. -/
def parenMatchAt (cs : List Char) : Bool :=
  let ds := cs.takeWhile Char.isDigit
  !ds.isEmpty && (cs.drop ds.length).head? == some ')'

/-- Length of a match of the citation regex `\[\d+\]|\(\d+\)` starting at
the head of the list, if any. -/
def citeMatchLen : List Char → Option Nat
  | [] => none
  | c :: cs =>
    if c == '[' && bracketMatchAt cs then some ((cs.takeWhile Char.isDigit).length + 2)
    else if c == '(' && parenMatchAt cs then some ((cs.takeWhile Char.isDigit).length + 2)
    else none

/-- Fuel-indexed scanner for `re.sub(r'\[\d+\]|\(\d+\)', ' ', text)`:
replace each non-overlapping leftmost match by a single space. -/
def removeCitingF : Nat → List Char → List Char
  | 0, l => l
  | _ + 1, [] => []
  | n + 1, c :: cs =>
    match citeMatchLen (c :: cs) with
    | some m => ' ' :: removeCitingF n ((c :: cs).drop m)
    | none => c :: removeCitingF n cs

/-- `AusarScrubber.remove_citing` (lines 85-94):
`re.sub(r'\[\d+\]|\(\d+\)', ' ', text)`. Every match consumes at least one
character, so `t.length` fuel always suffices. -/
def remove_citing (t : List Char) : List Char := removeCitingF t.length t

/-- Attempt to complete a match of `\(.*[,]\s*\d{4}.*\)` given `tail` (the
text after the opening paren) and a candidate comma index `k` inside the
current line: greedy `\s*`, exactly four digits, then the last `)` on the
line of the digits.  Returns the total match length (including the paren). -/
def refTryComma (tail : List Char) (k : Nat) : Option Nat :=
  let afterComma := tail.drop (k + 1)
  let ws := afterComma.takeWhile isPySpace
  let rest2 := afterComma.drop ws.length
  if (rest2.take 4).length == 4 && (rest2.take 4).all Char.isDigit then
    let rest3 := rest2.drop 4
    let seg := rest3.takeWhile (· != '\n')
    match seg.reverse.findIdx? (· == ')') with
    | some j => some (1 + (k + 1) + ws.length + 4 + (seg.length - 1 - j) + 1)
    | none => none
  else none

/-- Length of a match of the reference regex `\(.*[,]\s*\d{4}.*\)` starting
at the head of the list, if any.  Greedy backtracking picks the rightmost
comma on the opening paren's line that admits a completion, and then the
rightmost closing paren on the digits' line. -/
def refMatchLen : List Char → Option Nat
  | [] => none
  | c :: cs =>
    if c == '(' then
      let line1 := cs.takeWhile (· != '\n')
      (((List.range line1.length).filter
          (fun k => line1.getD k ' ' == ',')).reverse).findSome? (refTryComma cs)
    else none

/-- Fuel-indexed scanner for `re.sub(r'\(.*[,]\s*\d{4}.*\)', ' ', text)`. -/
def removeRefsF : Nat → List Char → List Char
  | 0, l => l
  | _ + 1, [] => []
  | n + 1, c :: cs =>
    match refMatchLen (c :: cs) with
    | some m => ' ' :: removeRefsF n ((c :: cs).drop m)
    | none => c :: removeRefsF n cs

/-- `AusarScrubber.remove_refs` (lines 96-105):
`re.sub(r'\(.*[,]\s*\d{4}.*\)', ' ', text)`. -/
def remove_refs (t : List Char) : List Char := removeRefsF t.length t

/-- Membership in the character class `[a-zA-Z0-9!?,.\-\n]` of the
normalization regex. -/
def filterAllowed (c : Char) : Bool :=
  c.isAlpha || c.isDigit || c == '!' || c == '?' || c == ',' || c == '.' ||
    c == '-' || c == '\n'

/-- `re.sub('[^a-zA-Z0-9!?,.\-\n]', ' ', text)`: every character outside the
class becomes a single space. -/
def charFilter (t : List Char) : List Char :=
  t.map (fun c => if filterAllowed c then c else ' ')

/-- The sentence-terminator class `[!?.]`. -/
def isErs (c : Char) : Bool := c == '!' || c == '?' || c == '.'

/-- `re.sub('[!?.]+', '.', text)`: every maximal run of `!?.` becomes a
single period. -/
def collapseErs : List Char → List Char
  | [] => []
  | [c] => if isErs c then ['.'] else [c]
  | c :: d :: cs =>
    if isErs c then
      if isErs d then collapseErs (d :: cs)
      else '.' :: collapseErs (d :: cs)
    else c :: collapseErs (d :: cs)

/-- `re.sub(' {2,}', ' ', text)`: every maximal run of two or more spaces
becomes a single space (runs of one space are already a single space). -/
def collapseSpaces : List Char → List Char
  | [] => []
  | [c] => [c]
  | c :: d :: cs =>
    if c == ' ' && d == ' ' then collapseSpaces (d :: cs)
    else c :: collapseSpaces (d :: cs)

/-- `AusarScrubber.normalize` (lines 107-128): citation stripping, then
reference stripping, then the three ordered regex passes. -/
def normalize (t : List Char) : List Char :=
  collapseSpaces (collapseErs (charFilter (remove_refs (remove_citing t))))

/-- `AusarScrubber.preprocess(text, mode='front')` (lines 130-151):
front cut, then normalization.  `none` models the `IndexError` that
`cut_head` can raise. -/
def preprocessFront (t : List Char) : Option (List Char) :=
  (cut_head t stopstringsFront).map normalize

/-- `AusarScrubber.preprocess(text, mode='body')` (lines 130-151):
back cut, then normalization. -/
def preprocessBody (t : List Char) : List Char :=
  normalize (cut_tail t stopstringsBody)

/-- Helper for `splitText`: Python `str.split('====')`, scanning left to
right for non-overlapping separator occurrences; `acc` holds the reversed
current section. -/
def splitAux : List Char → List Char → List (List Char)
  | acc, '=' :: '=' :: '=' :: '=' :: rest => acc.reverse :: splitAux [] rest
  | acc, c :: rest => splitAux (c :: acc) rest
  | acc, [] => [acc.reverse]

/-- `text.split('====')` as used by `__call__` (line 176). -/
def splitText (t : List Char) : List (List Char) := splitAux [] t

/-- Number of (non-overlapping, leftmost-greedy) occurrences of the
separator `====` in the text. -/
def countSep : List Char → Nat
  | '=' :: '=' :: '=' :: '=' :: rest => countSep rest + 1
  | _ :: rest => countSep rest
  | [] => 0

/--
The pure core of `AusarScrubber.__call__` (lines 173-187): split on the
separator; when the slice `[1:3]` has two sections they become
`front`/`body`, otherwise (`ValueError` on unpacking, caught by the source)
`front = ''` and `body` is the whole text; preprocess both and join with a
single newline.  `none` models the uncaught `IndexError` from `cut_head`.
-/
def scrubText (t : List Char) : Option (List Char) :=
  let sections := splitText t
  let front := if 3 ≤ sections.length then sections.getD 1 [] else []
  let body := if 3 ≤ sections.length then sections.getD 2 [] else t
  (preprocessFront front).map (fun pf => pf ++ '\n' :: preprocessBody body)

/-- The per-file environment seen by one `__call__` invocation inside the
batch: whether the path is a regular file, whether the output directory is
missing (so `os.mkdir` runs), and the outcome of each effectful step. -/
structure CallEnv where
  isFile : Bool
  dirMissing : Bool
  mkdirErr : Option String
  readErr : Option String
  text : List Char
  writeErr : Option String

/-- `AusarScrubber.__call__` (lines 153-194) as a function of its
environment: create the output directory if missing (its error
propagates), read the file (its error propagates), run the pure scrub
(`IndexError` propagates), write the result (its error propagates). -/
def callModel (e : CallEnv) : Except String (List Char) :=
  match (if e.dirMissing then e.mkdirErr else none) with
  | some m => .error m
  | none =>
    match e.readErr with
    | some m => .error m
    | none =>
      match scrubText e.text with
      | none => .error "IndexError"
      | some out =>
        match e.writeErr with
        | some m => .error m
        | none => .ok out

/-- Whether `__call__` raises in environment `e`. -/
def callFails (e : CallEnv) : Bool :=
  match callModel e with
  | .error _ => true
  | .ok _ => false

/-- The inner loop of `scrub_pmc` (lines 224-235) over one subfolder:
skip non-files, try `__call__` per file, count successes and failures. -/
def runFolder : Nat × Nat → List CallEnv → Nat × Nat
  | acc, [] => acc
  | (s, f), e :: rest =>
    if e.isFile then
      match callModel e with
      | .ok _ => runFolder (s + 1, f) rest
      | .error _ => runFolder (s, f + 1) rest
    else runFolder (s, f) rest

/-- `AusarScrubber.scrub_pmc` (lines 197-235) restricted to its counting
behaviour: iterate over the subfolders of the corpus, then over the files
of each subfolder, isolating every per-file exception.  The function is
total: nothing inside the modelled driver body can raise. -/
def batchModel (corpus : List (List CallEnv)) : Nat × Nat :=
  corpus.foldl runFolder (0, 0)

/-! ### Spec-side definitions and claim-support predicates -/

/-- Spec-side description of the back-cut point ("find the first
case-insensitive occurrence"): the first index of the text at which the
marker occurs in the lowercased text. -/
def firstOccSpec (t s : List Char) : Option Nat :=
  (List.range (t.length + 1)).find? (fun i => s.isPrefixOf ((lowerList t).drop i))

/-- Spec-side effective position of a back marker: its first occurrence,
or end of text when the marker is absent. -/
def effectiveBackIdx (t s : List Char) : Nat :=
  match firstOccSpec t s with
  | some i => i
  | none => t.length

/-- Spec-side back cut ("take the minimum start index over markers that
occur, treating absent markers as end of text; return the prefix up to
that index"), for the configured body stopstrings. -/
def backCutSpec (t : List Char) : List Char :=
  t.take (stopstringsBody.foldl (fun m s => min m (effectiveBackIdx t s)) t.length)

/-- Whether the text contains a bracketed run of digits, i.e. `[`,
one or more digits, `]` (detection predicate, used as a claim hypothesis). -/
def hasBracketRun : List Char → Bool
  | [] => false
  | c :: cs => (c == '[' && bracketMatchAt cs) || hasBracketRun cs

/-- Whether the text contains a parenthesized run of digits, i.e. `(`,
one or more digits, `)` (detection predicate, used as a claim hypothesis). -/
def hasParenRun : List Char → Bool
  | [] => false
  | c :: cs => (c == '(' && parenMatchAt cs) || hasParenRun cs

/-- The output character set of `normalize`: ASCII letters, ASCII digits,
comma, period, hyphen, newline, space. -/
def goodOut (c : Char) : Bool :=
  c.isAlpha || c.isDigit || c == ',' || c == '.' || c == '-' || c == '\n' || c == ' '

/-- Character class of the filter pass together with the space it writes. -/
def inFilterOut (c : Char) : Bool := filterAllowed c || c == ' '

/-- `noPair p l`: no two adjacent elements of `l` both satisfy `p`. -/
def noPair (p : Char → Bool) : List Char → Bool
  | a :: b :: rest => (!(p a && p b)) && noPair p (b :: rest)
  | _ => true

/-- The single-space class (for the space-collapsing pass). -/
def isSp (c : Char) : Bool := c == ' '

/-! ### Concrete inputs used by counterexamples, failing inputs and witnesses -/

/-- A text in which the front stopstring `credited` ends exactly at the end
of the text, so `cut_head`'s boundary cleanup indexes past the end. -/
def c1input : List Char := "x credited".data

/-- A separator-free document that contains a body stopstring. -/
def c2input : List Char := "acknowledgements here".data

/-- The end-to-end example document of the spec. -/
def c3input : List Char :=
  "==== front\nCopyright 2020, licensed and credited.\nTitle Here.\n==== body\nResults [1] show growth (Doe, 2021). Acknowledgements: none.\n==== refs\nDoe 2021.".data

/-- The output the spec's end-to-end example claims. -/
def c3claimed : List Char := "Title Here.\nResults show growth.".data

/-- The output the code actually produces on the spec's example document. -/
def c3actual : List Char := "\nTitle Here.\n\n body\nResults show growth . ".data

/-- A document in which the separator occurs exactly twice. -/
def c5input : List Char := "a====b====c".data

/-- A text with no digit-only bracket or paren pattern that the reference
regex nevertheless rewrites. -/
def c9input : List Char := "(Doe, 2021)".data

/-- A per-file environment in which the output directory is missing and
creating it raises `PermissionError`. -/
def permDeniedEnv : CallEnv :=
  { isFile := true, dirMissing := true, mkdirErr := some "PermissionError",
    readErr := none, text := [], writeErr := none }

/-- A per-file environment in which everything succeeds. -/
def okEnv : CallEnv :=
  { isFile := true, dirMissing := false, mkdirErr := none,
    readErr := none, text := "hello".data, writeErr := none }

/-- A per-file environment in which reading the file raises `OSError`. -/
def badReadEnv : CallEnv :=
  { isFile := true, dirMissing := false, mkdirErr := none,
    readErr := some "OSError", text := [], writeErr := none }

end Scrub

namespace Scrub

/-!
### C1

The front-cut boundary cleanup reads `text[start_idx+1]` with no bounds
check, so when a front stopstring occurrence ends at the end of the text
the computed index is `len(text)` and the access raises `IndexError`.
-/

/-- C1: the claim says `cut_head` never reads past the end of the string
and always returns a result; in fact, on `"x credited"` (where the
stopstring `credited` ends exactly at the end of the text) the boundary
cleanup accesses `text[11]` in a 10-character string and raises
`IndexError`, modelled as `none`. -/
theorem c1_cut_head_raises_at_text_end :
    cut_head c1input stopstringsFront = none := by decide

/-!
### C3 counterexample and actual behaviour
-/

/-- C3 (counterexample): on the spec's end-to-end example document the
code does not produce the claimed output `"Title Here.\nResults show
growth."`. -/
theorem c3_example_output_differs :
    scrubText c3input ≠ some c3claimed := by decide

/-- C3 (amended): on the spec's end-to-end example document, scrub
produces `"\nTitle Here.\n\n body\nResults show growth . "`: the front
cut advances past the period after `credited` but keeps the following
newline and trailing newline, the body cut keeps the `" body"` section
label, and normalization leaves a space before the final period and a
trailing space. -/
theorem c3_example_actual_output :
    scrubText c3input = some c3actual := by decide

/-!
### C2 and C5: section splitting, fallback, and what the fallback does
-/

/-- Splitting a text on the separator always yields one more section than
there are separator occurrences. -/
theorem splitAux_length (acc t : List Char) :
    (splitAux acc t).length = countSep t + 1 := by
  induction acc, t using splitAux.induct <;> simp_all [splitAux, countSep]

/-- C2 (counterexample): on the separator-free document
`"acknowledgements here"` the fallback path still applies the body
back-cut, so the output is not one newline followed by the normalized
whole text. -/
theorem c2_fallback_body_is_still_cut :
    (splitText c2input).length < 3 ∧
      scrubText c2input ≠ some ('\n' :: normalize c2input) := by decide

/-- C2 (amended): with fewer than 3 sections, the front segment is empty
and the body segment is the entire original text, but the body is still
back-cut (`cut_tail` with the body stopstrings) before normalization; the
output is one leading newline followed by that preprocessed body. -/
theorem c2_fallback_output (t : List Char) (h : (splitText t).length < 3) :
    scrubText t = some ('\n' :: preprocessBody t) := by
  have hf : preprocessFront [] = some [] := by decide
  simp only [scrubText]
  rw [if_neg (by omega), if_neg (by omega), hf]
  simp

/-- C2 witness: the amended fallback theorem applied to the concrete
separator-free document `"hello"`. -/
theorem c2_fallback_output_witness :
    (splitText "hello".data).length < 3 ∧
      scrubText "hello".data = some ('\n' :: preprocessBody "hello".data) :=
  ⟨by decide, c2_fallback_output _ (by decide)⟩

/-- C5 (counterexample): in `"a====b====c"` the separator occurs only
twice, yet the front/body structure is recognized (front `"b"`, body
`"c"`) instead of the fallback the claim requires for fewer than 3
occurrences. -/
theorem c5_two_separators_recognized :
    countSep c5input = 2 ∧
      scrubText c5input = some "b\nc".data ∧
      scrubText c5input ≠ some ('\n' :: preprocessBody c5input) := by decide

/-- C5 (amended): the front/body structure is recognized (front and body
taken from sections 1 and 2 of the split) exactly when the separator
occurs at least 2 times, i.e. when the split yields at least 3 sections;
with at most 1 occurrence the documented fallback is used. -/
theorem c5_structure_threshold (t : List Char) :
    (2 ≤ countSep t →
      scrubText t = (preprocessFront ((splitText t).getD 1 [])).map
        (fun pf => pf ++ '\n' :: preprocessBody ((splitText t).getD 2 []))) ∧
    (countSep t < 2 → scrubText t = some ('\n' :: preprocessBody t)) := by
  have hlen : (splitText t).length = countSep t + 1 := splitAux_length [] t
  constructor
  · intro h
    simp only [scrubText]
    rw [if_pos (by omega), if_pos (by omega)]
  · intro h
    have hf : preprocessFront [] = some [] := by decide
    simp only [scrubText]
    rw [if_neg (by omega), if_neg (by omega), hf]
    simp

/-- C5 witness: the amended threshold theorem applied to
`"x====y====z"`, where the separator occurs exactly twice. -/
theorem c5_structure_threshold_witness :
    2 ≤ countSep "x====y====z".data ∧
      scrubText "x====y====z".data =
        (preprocessFront ((splitText "x====y====z".data).getD 1 [])).map
          (fun pf =>
            pf ++ '\n' :: preprocessBody ((splitText "x====y====z".data).getD 2 [])) :=
  ⟨by decide, (c5_structure_threshold _).1 (by decide)⟩

/-!
### C4 and C8: the batch driver's failure handling
-/

/-- The per-folder loop only ever adds to the counters it starts from. -/
theorem runFolder_shift (l : List CallEnv) (s f : Nat) :
    runFolder (s, f) l = (s + (runFolder (0, 0) l).1, f + (runFolder (0, 0) l).2) := by
  induction l generalizing s f with
  | nil => simp [runFolder]
  | cons e rest ih =>
    simp only [runFolder]
    by_cases hf : e.isFile
    · simp only [hf, if_true]
      cases hc : callModel e with
      | ok v =>
        rw [ih (s + 1) f, ih 1 0]
        simp [Prod.ext_iff]
        omega
      | error m =>
        rw [ih s (f + 1), ih 0 1]
        simp [Prod.ext_iff]
        omega
    · simp only [hf, if_false]
      exact ih s f

/-- The folder-level fold only ever adds to the counters it starts from. -/
theorem batch_shift (corpus : List (List CallEnv)) (s f : Nat) :
    corpus.foldl runFolder (s, f) =
      (s + (corpus.foldl runFolder (0, 0)).1, f + (corpus.foldl runFolder (0, 0)).2) := by
  induction corpus generalizing s f with
  | nil => simp
  | cons folder rest ih =>
    simp only [List.foldl_cons]
    rcases hp : runFolder (0, 0) folder with ⟨x, y⟩
    rw [runFolder_shift folder s f, hp, ih (s + x) (f + y), ih x y]
    simp [Prod.ext_iff]
    omega

/-- C4 (counterexample): when creating the output directory raises
`PermissionError`, the batch driver does not propagate it: the error is
raised inside `__call__`, caught by the per-file handler, and counted as
one per-file failure. -/
theorem c4_mkdir_error_counted_per_file :
    permDeniedEnv.dirMissing = true ∧
      permDeniedEnv.mkdirErr = some "PermissionError" ∧
      batchModel [[permDeniedEnv]] = (0, 1) := by
  refine ⟨rfl, rfl, ?_⟩
  decide

/-- C4 (amended): a filesystem error raised while creating the output
directory occurs inside the per-file scrub call, so the per-file failure
handling catches it, increments the failure counter, and the batch
continues over the remaining files and folders. -/
theorem c4_mkdir_error_isolated (e : CallEnv) (rest : List CallEnv)
    (folders : List (List CallEnv)) (h1 : e.isFile = true)
    (h2 : e.dirMissing = true) (h3 : e.mkdirErr.isSome) :
    batchModel ((e :: rest) :: folders) =
      ((batchModel (rest :: folders)).1, (batchModel (rest :: folders)).2 + 1) := by
  obtain ⟨m, hm⟩ := Option.isSome_iff_exists.mp h3
  have hcall : callModel e = .error m := by simp [callModel, h2, hm]
  simp only [batchModel, List.foldl_cons]
  simp only [runFolder, h1, if_true, hcall]
  rcases hp : runFolder (0, 0) rest with ⟨x, y⟩
  rw [runFolder_shift rest 0 1, hp]
  rcases hq : List.foldl runFolder (0, 0) folders with ⟨a, b⟩
  rw [batch_shift folders (0 + x) (1 + y), hq, batch_shift folders x y, hq]
  simp [Prod.ext_iff]
  omega

/-- C4 witness: the amended isolation theorem applied to a corpus of one
folder holding one file whose output-directory creation is denied. -/
theorem c4_mkdir_error_isolated_witness :
    permDeniedEnv.isFile = true ∧ permDeniedEnv.dirMissing = true ∧
      permDeniedEnv.mkdirErr.isSome ∧
      batchModel [[permDeniedEnv]] =
        ((batchModel [([] : List CallEnv)]).1, (batchModel [([] : List CallEnv)]).2 + 1) :=
  ⟨by decide, by decide, by decide,
    c4_mkdir_error_isolated _ _ _ (by decide) (by decide) (by decide)⟩

/-- On a folder of regular files, the per-folder loop counts exactly the
successful and the failing `__call__` invocations. -/
theorem runFolder_counts (folder : List CallEnv)
    (hall : ∀ e ∈ folder, e.isFile = true) :
    runFolder (0, 0) folder =
      (folder.countP (fun e => !callFails e), folder.countP callFails) := by
  induction folder with
  | nil => simp [runFolder]
  | cons e rest ih =>
    have he : e.isFile = true := hall e (by simp)
    have ihr := ih (fun x hx => hall x (by simp [hx]))
    simp only [runFolder, he, if_true]
    cases hc : callModel e with
    | ok v =>
      have hcf : callFails e = false := by simp [callFails, hc]
      rw [runFolder_shift rest 1 0, ihr]
      simp [List.countP_cons, hcf, Prod.ext_iff]
      omega
    | error m =>
      have hcf : callFails e = true := by simp [callFails, hc]
      rw [runFolder_shift rest 0 1, ihr]
      simp [List.countP_cons, hcf, Prod.ext_iff]
      omega

/-- Over a corpus of folders of regular files, the batch driver reports
exactly the number of successful and of failing per-file scrubs. -/
theorem batch_counts (corpus : List (List CallEnv))
    (hall : ∀ folder ∈ corpus, ∀ e ∈ folder, e.isFile = true) :
    batchModel corpus =
      (corpus.flatten.countP (fun e => !callFails e),
        corpus.flatten.countP callFails) := by
  induction corpus with
  | nil => simp [batchModel]
  | cons folder rest ih =>
    have ihr := ih (fun f hf e he => hall f (by simp [hf]) e he)
    simp only [batchModel, List.foldl_cons] at ihr ⊢
    rw [runFolder_counts folder (hall folder (by simp))]
    rcases hq : List.foldl runFolder (0, 0) rest with ⟨a, b⟩
    rw [hq] at ihr
    simp only [Prod.mk.injEq] at ihr
    obtain ⟨ha, hb⟩ := ihr
    rw [batch_shift rest _ _, hq]
    simp only [List.flatten_cons, List.countP_append, Prod.mk.injEq]
    omega

/-- Counting the elements failing a test and those passing it exhausts
the list. -/
theorem countP_not_add (p : CallEnv → Bool) (l : List CallEnv) :
    l.countP (fun e => !p e) + l.countP p = l.length := by
  induction l with
  | nil => simp
  | cons e rest ih =>
    by_cases h : p e <;> simp [List.countP_cons, h] <;> omega

/-- C8: the batch driver isolates failures per file; over any corpus of
regular files in which exactly one file's scrub raises and the other two
succeed, the run reports 2 successes and 1 failure (and, being a total
function of the corpus, it does not itself raise). -/
theorem c8_batch_failure_isolation (corpus : List (List CallEnv))
    (hall : ∀ folder ∈ corpus, ∀ e ∈ folder, e.isFile = true)
    (hlen : corpus.flatten.length = 3)
    (hfail : corpus.flatten.countP callFails = 1) :
    batchModel corpus = (2, 1) := by
  rw [batch_counts corpus hall]
  have hsum := countP_not_add callFails corpus.flatten
  have h2 : corpus.flatten.countP (fun e => !callFails e) = 2 := by omega
  rw [h2, hfail]

/-- C8 witness: a two-folder corpus with one unreadable file and two
valid files reports 2 successes and 1 failure. -/
theorem c8_batch_failure_isolation_witness :
    (∀ folder ∈ [[okEnv, badReadEnv], [okEnv]], ∀ e ∈ folder, e.isFile = true) ∧
      ([[okEnv, badReadEnv], [okEnv]] : List (List CallEnv)).flatten.length = 3 ∧
      ([[okEnv, badReadEnv], [okEnv]] : List (List CallEnv)).flatten.countP callFails = 1 ∧
      batchModel [[okEnv, badReadEnv], [okEnv]] = (2, 1) :=
  ⟨by decide, by decide, by decide,
    c8_batch_failure_isolation _ (by decide) (by decide) (by decide)⟩

/-!
### C7: the back cut refines the spec's description
-/

/-- `find?` over successors of a list of indices. -/
theorem find?_map_succ (p : Nat → Bool) (l : List Nat) :
    (l.map Nat.succ).find? p = (l.find? (fun i => p (i + 1))).map Nat.succ := by
  induction l with
  | nil => simp
  | cons a l ih =>
    by_cases h : p (a + 1) <;> simp [List.find?, h, Nat.succ_eq_add_one, ih]

/-- The scanning search of `findSubNat` returns the first index of the
range at which the pattern is a prefix of the remaining text. -/
theorem findSubNat_eq_find? (s t : List Char) :
    findSubNat s t =
      (List.range (t.length + 1)).find? (fun i => s.isPrefixOf (t.drop i)) := by
  induction t with
  | nil =>
    cases s <;> simp [findSubNat, List.range_succ, List.find?, List.isPrefixOf]
  | cons c cs ih =>
    rw [show (c :: cs).length + 1 = (cs.length + 1) + 1 from rfl,
      List.range_succ_eq_map]
    by_cases hp : s.isPrefixOf (c :: cs)
    · rw [List.find?_cons_of_pos _ (by simpa using hp)]
      simp [findSubNat, hp]
    · rw [List.find?_cons_of_neg _ (by simpa using hp)]
      rw [find?_map_succ]
      simp only [List.drop_succ_cons]
      rw [← ih]
      simp [findSubNat, hp, Nat.succ_eq_add_one]

/-- Python `str.find` on the lowercased text agrees with the spec-side
first-occurrence search (`-1` for an absent marker). -/
theorem pyFind_lower_spec (t s : List Char) :
    pyFind (lowerList t) s =
      match firstOccSpec t s with
      | some i => (i : Int)
      | none => -1 := by
  have hl : (lowerList t).length = t.length := by simp [lowerList]
  unfold pyFind firstOccSpec
  rw [findSubNat_eq_find?, hl]

/-- The spec-side effective back-cut position never exceeds the text
length. -/
theorem effectiveBackIdx_le (t s : List Char) :
    effectiveBackIdx t s ≤ t.length := by
  cases h : firstOccSpec t s with
  | none => simp [effectiveBackIdx, h]
  | some i =>
    have hi := List.mem_of_find?_eq_some h
    rw [List.mem_range] at hi
    simp only [effectiveBackIdx, h]
    omega

/-- The arithmetic trick `find + (len+1)*(find == -1)` of `cut_tail`
computes exactly the spec-side effective position of one marker. -/
theorem backVal_eq (t s : List Char) :
    pyFind (lowerList t) s + ((t.length : Int) + 1) *
        (if pyFind (lowerList t) s = -1 then 1 else 0) =
      (effectiveBackIdx t s : Int) := by
  rw [pyFind_lower_spec]
  cases h : firstOccSpec t s with
  | some i =>
    simp only [effectiveBackIdx, h]
    rw [if_neg (show ¬((i : Int) = -1) by omega)]
    ring
  | none =>
    simp only [effectiveBackIdx, h]
    rw [if_pos trivial]
    ring

/-- `cut_tail` with the configured body stopstrings equals the spec-side
back cut. -/
theorem cut_tail_eq_backCutSpec (t : List Char) :
    cut_tail t stopstringsBody = backCutSpec t := by
  have h1 := backVal_eq t sbAck
  have h2 := backVal_eq t sbSup
  have b1 := effectiveBackIdx_le t sbAck
  unfold cut_tail backCutSpec
  simp only [stopstringsBody, List.map_cons, List.map_nil, minIntList,
    List.foldl_cons, List.foldl_nil]
  rw [h1, h2]
  congr 1
  omega

/-- C7: for every text, `cut_tail` with the configured lowercase body
stopstrings returns the prefix of the text up to the minimum first
case-insensitive occurrence over the markers that occur, an absent marker
contributing its effective position "end of text"; when no marker occurs
the whole text is returned unchanged. -/
theorem c7_cut_tail_matches_spec (t : List Char) :
    cut_tail t stopstringsBody = backCutSpec t ∧
      ((∀ s ∈ stopstringsBody, firstOccSpec t s = none) →
        cut_tail t stopstringsBody = t) := by
  refine ⟨cut_tail_eq_backCutSpec t, fun hnone => ?_⟩
  rw [cut_tail_eq_backCutSpec t]
  unfold backCutSpec
  have h1 : effectiveBackIdx t sbAck = t.length := by
    simp only [effectiveBackIdx, hnone sbAck (by simp [stopstringsBody])]
  have h2 : effectiveBackIdx t sbSup = t.length := by
    simp only [effectiveBackIdx, hnone sbSup (by simp [stopstringsBody])]
  simp only [stopstringsBody, List.foldl_cons, List.foldl_nil, h1, h2, min_self]
  exact List.take_length t

/-- C7 witness: on `"plain text"` no body stopstring occurs and the text
is returned unchanged. -/
theorem c7_cut_tail_matches_spec_witness :
    (∀ s ∈ stopstringsBody, firstOccSpec "plain text".data s = none) ∧
      cut_tail "plain text".data stopstringsBody = "plain text".data :=
  ⟨by decide, (c7_cut_tail_matches_spec _).2 (by decide)⟩

/-!
### C9: when the pattern strippers are the identity
-/

/-- If the head of a list starts no bracketed digit run, neither does the
rest of the list start one inside the tail check. -/
theorem hasBracketRun_tail {c : Char} {cs : List Char}
    (h : hasBracketRun (c :: cs) = false) : hasBracketRun cs = false := by
  simp only [hasBracketRun, Bool.or_eq_false_iff] at h
  exact h.2

/-- Tail stability of the parenthesized-digit-run detector. -/
theorem hasParenRun_tail {c : Char} {cs : List Char}
    (h : hasParenRun (c :: cs) = false) : hasParenRun cs = false := by
  simp only [hasParenRun, Bool.or_eq_false_iff] at h
  exact h.2

/-- Without a bracketed or parenthesized digit run at the head, the
citation regex does not match there. -/
theorem citeMatchLen_none {c : Char} {cs : List Char}
    (hb : hasBracketRun (c :: cs) = false) (hp : hasParenRun (c :: cs) = false) :
    citeMatchLen (c :: cs) = none := by
  simp only [hasBracketRun, Bool.or_eq_false_iff] at hb
  simp only [hasParenRun, Bool.or_eq_false_iff] at hp
  simp [citeMatchLen, hb.1, hp.1]

/-- A text with no bracketed and no parenthesized digit run passes through
the citation scanner unchanged, whatever the fuel. -/
theorem removeCitingF_id (n : Nat) (t : List Char)
    (hb : hasBracketRun t = false) (hp : hasParenRun t = false) :
    removeCitingF n t = t := by
  induction n generalizing t with
  | zero => rfl
  | succ n ih =>
    cases t with
    | nil => rfl
    | cons c cs =>
      simp only [removeCitingF, citeMatchLen_none hb hp]
      rw [ih cs (hasBracketRun_tail hb) (hasParenRun_tail hp)]

/-- The reference regex can only match at an opening parenthesis. -/
theorem refMatchLen_none {c : Char} (cs : List Char) (h : ¬ c = '(') :
    refMatchLen (c :: cs) = none := by
  simp [refMatchLen, h]

/-- A text without `(` passes through the reference scanner unchanged,
whatever the fuel. -/
theorem removeRefsF_id (n : Nat) (t : List Char) (h : '(' ∉ t) :
    removeRefsF n t = t := by
  induction n generalizing t with
  | zero => rfl
  | succ n ih =>
    cases t with
    | nil => rfl
    | cons c cs =>
      have hc : ¬ c = '(' := fun hh => h (by simp [hh])
      simp only [removeRefsF, refMatchLen_none cs hc]
      rw [ih cs (fun hh => h (by simp [hh]))]

/-- A text without `[` contains no bracketed digit run. -/
theorem hasBracketRun_eq_false (t : List Char) (h : '[' ∉ t) :
    hasBracketRun t = false := by
  induction t with
  | nil => rfl
  | cons c cs ih =>
    have hc : ¬ c = '[' := fun hh => h (by simp [hh])
    simp [hasBracketRun, hc, ih (fun hh => h (by simp [hh]))]

/-- A text without `(` contains no parenthesized digit run. -/
theorem hasParenRun_eq_false (t : List Char) (h : '(' ∉ t) :
    hasParenRun t = false := by
  induction t with
  | nil => rfl
  | cons c cs ih =>
    have hc : ¬ c = '(' := fun hh => h (by simp [hh])
    simp [hasParenRun, hc, ih (fun hh => h (by simp [hh]))]

/-- C9 (counterexample): `"(Doe, 2021)"` contains no bracketed run of
digits and no parenthesized run of digits, yet `remove_refs` does not
return it unchanged (the reference regex rewrites it to a space). -/
theorem c9_remove_refs_not_identity :
    hasBracketRun c9input = false ∧ hasParenRun c9input = false ∧
      remove_refs c9input ≠ c9input := by decide

/-- C9 (amended): on every text with no bracketed run of digits and no
parenthesized run of digits, `remove_citing` is the identity; and
`remove_refs` is the identity on every text containing no `(` character
(its pattern also rewrites parenthesized segments holding a comma
followed by a four-digit run, so digit-only patterns do not characterize
it). -/
theorem c9_strippers_identity (t : List Char) :
    (hasBracketRun t = false → hasParenRun t = false → remove_citing t = t) ∧
      ('(' ∉ t → remove_refs t = t) :=
  ⟨fun hb hp => removeCitingF_id t.length t hb hp,
   fun h => removeRefsF_id t.length t h⟩

/-- C9 witness: both identities applied to concrete texts. -/
theorem c9_strippers_identity_witness :
    (hasBracketRun "see [note] and (fig A)".data = false ∧
        hasParenRun "see [note] and (fig A)".data = false ∧
        remove_citing "see [note] and (fig A)".data = "see [note] and (fig A)".data) ∧
      ('(' ∉ "plain text, 2021".data ∧
        remove_refs "plain text, 2021".data = "plain text, 2021".data) :=
  ⟨⟨by decide, by decide,
      (c9_strippers_identity _).1 (by decide) (by decide)⟩,
    ⟨by decide, (c9_strippers_identity _).2 (by decide)⟩⟩

/-!
### C10 and C6: the normalization passes

Membership and adjacency invariants of the three regex passes, leading to
the output character set (C10) and to idempotence (C6).
-/

/-- Every character of the filter pass output is in the allowed class or
is a space. -/
theorem charFilter_mem {t : List Char} {c : Char} (h : c ∈ charFilter t) :
    inFilterOut c = true := by
  unfold charFilter at h
  obtain ⟨a, _, rfl⟩ := List.mem_map.mp h
  by_cases ha : filterAllowed a <;> simp [inFilterOut, ha]

/-- Every character of the terminator-collapsing pass output is a period
or a non-terminator character of the input. -/
theorem collapseErs_mem (l : List Char) :
    ∀ c ∈ collapseErs l, c = '.' ∨ (c ∈ l ∧ isErs c = false) := by
  induction l with
  | nil => simp [collapseErs]
  | cons a l ih =>
    cases l with
    | nil =>
      intro c hc
      by_cases ha : isErs a
      · simp [collapseErs, ha] at hc
        left
        exact hc
      · simp [collapseErs, ha] at hc
        subst hc
        exact Or.inr ⟨by simp, by simpa using ha⟩
    | cons b rest =>
      intro c hc
      by_cases ha : isErs a
      · by_cases hb : isErs b
        · rw [show collapseErs (a :: b :: rest) = collapseErs (b :: rest) from by
            simp [collapseErs, ha, hb]] at hc
          rcases ih c hc with h | ⟨h1, h2⟩
          · exact Or.inl h
          · exact Or.inr ⟨by simp [h1], h2⟩
        · rw [show collapseErs (a :: b :: rest) = '.' :: collapseErs (b :: rest) from by
            simp [collapseErs, ha, hb]] at hc
          rcases List.mem_cons.mp hc with h | h
          · exact Or.inl h
          · rcases ih c h with h1 | ⟨h1, h2⟩
            · exact Or.inl h1
            · exact Or.inr ⟨by simp [h1], h2⟩
      · rw [show collapseErs (a :: b :: rest) = a :: collapseErs (b :: rest) from by
          simp [collapseErs, ha]] at hc
        rcases List.mem_cons.mp hc with h | h
        · subst h
          exact Or.inr ⟨by simp, by simpa using ha⟩
        · rcases ih c h with h1 | ⟨h1, h2⟩
          · exact Or.inl h1
          · exact Or.inr ⟨by simp [h1], h2⟩

/-- Every character of the space-collapsing pass output is a character of
the input. -/
theorem collapseSpaces_mem (l : List Char) :
    ∀ c ∈ collapseSpaces l, c ∈ l := by
  induction l with
  | nil => simp [collapseSpaces]
  | cons a l ih =>
    cases l with
    | nil => simp [collapseSpaces]
    | cons b rest =>
      intro c hc
      by_cases hab : a == ' ' && b == ' '
      · rw [show collapseSpaces (a :: b :: rest) = collapseSpaces (b :: rest) from by
          simp [collapseSpaces, hab]] at hc
        simp [ih c hc]
      · rw [show collapseSpaces (a :: b :: rest) = a :: collapseSpaces (b :: rest) from by
          simp [collapseSpaces, hab]] at hc
        rcases List.mem_cons.mp hc with h | h
        · simp [h]
        · simp [ih c h]

/-- Every character of the output of `normalize` is in the output set. -/
theorem normalize_goodOut (t : List Char) :
    ∀ c ∈ normalize t, goodOut c = true := by
  intro c hc
  unfold normalize at hc
  have h1 := collapseSpaces_mem _ c hc
  rcases collapseErs_mem _ c h1 with h | ⟨h2, h3⟩
  · subst h
    decide
  · have h4 := charFilter_mem h2
    unfold inFilterOut filterAllowed at h4
    unfold isErs at h3
    unfold goodOut
    simp only [Bool.or_eq_true, beq_iff_eq] at h4 ⊢
    simp only [Bool.or_eq_false_iff, beq_eq_false_iff_ne, ne_eq] at h3
    tauto

/-- C10: no character outside ASCII letters, ASCII digits, comma, period,
hyphen, newline and space survives `normalize` (in particular `!` and `?`
are folded into periods, and parentheses and brackets are replaced by
spaces). -/
theorem c10_normalize_charset (t : List Char) :
    ∀ c ∈ normalize t, c.isAlpha = true ∨ c.isDigit = true ∨ c = ',' ∨
      c = '.' ∨ c = '-' ∨ c = '\n' ∨ c = ' ' := by
  intro c hc
  have h := normalize_goodOut t c hc
  unfold goodOut at h
  simp only [Bool.or_eq_true, beq_iff_eq] at h
  tauto

/-- C10 witness: the invariant applied to the output character `.` that
`normalize` produces from the text `"a!b"`. -/
theorem c10_normalize_charset_witness :
    '.' ∈ normalize "a!b".data ∧
      ('.'.isAlpha = true ∨ '.'.isDigit = true ∨ '.' = ',' ∨ '.' = '.' ∨
        '.' = '-' ∨ '.' = '\n' ∨ '.' = ' ') :=
  ⟨by decide, c10_normalize_charset "a!b".data '.' (by decide)⟩

/-- The head of the terminator-collapsing pass output: a period when the
input head is a terminator, the input head otherwise. -/
theorem collapseErs_head (a : Char) (l : List Char) :
    (collapseErs (a :: l)).head? = some (if isErs a then '.' else a) := by
  induction l generalizing a with
  | nil => by_cases ha : isErs a <;> simp [collapseErs, ha]
  | cons b rest ih =>
    by_cases ha : isErs a
    · by_cases hb : isErs b
      · rw [show collapseErs (a :: b :: rest) = collapseErs (b :: rest) from by
          simp [collapseErs, ha, hb]]
        rw [ih b]
        simp [ha, hb]
      · rw [show collapseErs (a :: b :: rest) = '.' :: collapseErs (b :: rest) from by
          simp [collapseErs, ha, hb]]
        simp [ha]
    · rw [show collapseErs (a :: b :: rest) = a :: collapseErs (b :: rest) from by
        simp [collapseErs, ha]]
      simp [ha]

/-- The space-collapsing pass keeps the head of the list. -/
theorem collapseSpaces_head (a : Char) (l : List Char) :
    (collapseSpaces (a :: l)).head? = some a := by
  induction l generalizing a with
  | nil => simp [collapseSpaces]
  | cons b rest ih =>
    by_cases hab : a == ' ' && b == ' '
    · have hab' := hab
      simp only [Bool.and_eq_true, beq_iff_eq] at hab'
      rw [show collapseSpaces (a :: b :: rest) = collapseSpaces (b :: rest) from by
        simp [collapseSpaces, hab]]
      rw [ih b, hab'.1, hab'.2]
    · rw [show collapseSpaces (a :: b :: rest) = a :: collapseSpaces (b :: rest) from by
        simp [collapseSpaces, hab]]
      simp

/-- Adjacency is inherited by the tail. -/
theorem noPair_tail {p : Char → Bool} {a : Char} {l : List Char}
    (h : noPair p (a :: l) = true) : noPair p l = true := by
  cases l with
  | nil => rfl
  | cons b rest =>
    simp only [noPair, Bool.and_eq_true] at h
    exact h.2

/-- Extending a pair-free list by a head that forms no pair with the next
element keeps it pair-free. -/
theorem noPair_cons_of {p : Char → Bool} {x : Char} {l : List Char}
    (hl : noPair p l = true)
    (hh : ∀ y, l.head? = some y → (p x && p y) = false) :
    noPair p (x :: l) = true := by
  cases l with
  | nil => rfl
  | cons b rest =>
    simp only [noPair, Bool.and_eq_true, Bool.not_eq_true']
    exact ⟨hh b rfl, hl⟩

/-- The terminator-collapsing pass never emits two adjacent terminator
characters. -/
theorem collapseErs_noPair (l : List Char) :
    noPair isErs (collapseErs l) = true := by
  induction l with
  | nil => rfl
  | cons a l ih =>
    cases l with
    | nil => by_cases ha : isErs a <;> simp [collapseErs, ha, noPair]
    | cons b rest =>
      by_cases ha : isErs a
      · by_cases hb : isErs b
        · rw [show collapseErs (a :: b :: rest) = collapseErs (b :: rest) from by
            simp [collapseErs, ha, hb]]
          exact ih
        · rw [show collapseErs (a :: b :: rest) = '.' :: collapseErs (b :: rest) from by
            simp [collapseErs, ha, hb]]
          refine noPair_cons_of ih fun y hy => ?_
          rw [collapseErs_head b rest] at hy
          simp only [hb, if_false, Option.some.injEq] at hy
          subst hy
          simp [hb]
      · rw [show collapseErs (a :: b :: rest) = a :: collapseErs (b :: rest) from by
          simp [collapseErs, ha]]
        refine noPair_cons_of ih fun y hy => ?_
        simp [show isErs a = false from by simpa using ha]

/-- The space-collapsing pass preserves pair-freeness: it keeps heads
exactly, so it never makes two surviving characters newly adjacent. -/
theorem collapseSpaces_noPair_preserve {p : Char → Bool}
    (l : List Char) (h : noPair p l = true) :
    noPair p (collapseSpaces l) = true := by
  induction l with
  | nil => rfl
  | cons a l ih =>
    cases l with
    | nil => simp [collapseSpaces, noPair]
    | cons b rest =>
      have ht := noPair_tail h
      by_cases hab : a == ' ' && b == ' '
      · rw [show collapseSpaces (a :: b :: rest) = collapseSpaces (b :: rest) from by
          simp [collapseSpaces, hab]]
        exact ih ht
      · rw [show collapseSpaces (a :: b :: rest) = a :: collapseSpaces (b :: rest) from by
          simp [collapseSpaces, hab]]
        refine noPair_cons_of (ih ht) fun y hy => ?_
        rw [collapseSpaces_head b rest] at hy
        simp only [Option.some.injEq] at hy
        subst hy
        simp only [noPair, Bool.and_eq_true, Bool.not_eq_true'] at h
        exact h.1

/-- The space-collapsing pass never emits two adjacent spaces. -/
theorem collapseSpaces_noPair_sp (l : List Char) :
    noPair isSp (collapseSpaces l) = true := by
  induction l with
  | nil => rfl
  | cons a l ih =>
    cases l with
    | nil => simp [collapseSpaces, noPair]
    | cons b rest =>
      by_cases hab : a == ' ' && b == ' '
      · rw [show collapseSpaces (a :: b :: rest) = collapseSpaces (b :: rest) from by
          simp [collapseSpaces, hab]]
        exact ih
      · rw [show collapseSpaces (a :: b :: rest) = a :: collapseSpaces (b :: rest) from by
          simp [collapseSpaces, hab]]
        refine noPair_cons_of ih fun y hy => ?_
        rw [collapseSpaces_head b rest] at hy
        simp only [Option.some.injEq] at hy
        subst hy
        simpa [isSp] using hab

/-- A character of the output set that is a sentence terminator is a
period. -/
theorem goodOut_ers_eq_dot {a : Char} (hg : goodOut a = true)
    (ha : isErs a = true) : a = '.' := by
  unfold isErs at ha
  simp only [Bool.or_eq_true, beq_iff_eq] at ha
  rcases ha with (h | h) | h
  · subst h
    exact absurd hg (by decide)
  · subst h
    exact absurd hg (by decide)
  · exact h

/-- The filter pass is the identity on texts over the output set. -/
theorem charFilter_id (t : List Char) (h : ∀ c ∈ t, goodOut c = true) :
    charFilter t = t := by
  induction t with
  | nil => rfl
  | cons a t ih =>
    have ha := h a (by simp)
    have hstep : (if filterAllowed a then a else ' ') = a := by
      by_cases hfa : filterAllowed a
      · simp [hfa]
      · rw [if_neg hfa]
        unfold goodOut at ha
        simp only [Bool.or_eq_true, beq_iff_eq] at ha
        rcases ha with ((((((h1 | h1) | h1) | h1) | h1) | h1) | h1)
        · exact absurd (show filterAllowed a = true by simp [filterAllowed, h1]) hfa
        · exact absurd (show filterAllowed a = true by simp [filterAllowed, h1]) hfa
        · subst h1
          exact absurd (by decide) hfa
        · subst h1
          exact absurd (by decide) hfa
        · subst h1
          exact absurd (by decide) hfa
        · subst h1
          exact absurd (by decide) hfa
        · subst h1
          rfl
    unfold charFilter at ih ⊢
    simp only [List.map_cons, hstep]
    rw [ih (fun c hc => h c (by simp [hc]))]

/-- The terminator-collapsing pass is the identity on texts over the
output set with no adjacent terminators. -/
theorem collapseErs_id (t : List Char) (hg : ∀ c ∈ t, goodOut c = true)
    (hnp : noPair isErs t = true) : collapseErs t = t := by
  induction t with
  | nil => rfl
  | cons a l ih =>
    cases l with
    | nil =>
      by_cases ha : isErs a
      · have ha' : a = '.' := goodOut_ers_eq_dot (hg a (by simp)) ha
        simp [collapseErs, ha, ha']
      · simp [collapseErs, ha]
    | cons b rest =>
      have hgt : ∀ c ∈ b :: rest, goodOut c = true := fun c hc => hg c (by simp [hc])
      have hnpt := noPair_tail hnp
      by_cases ha : isErs a
      · have hb : isErs b = false := by
          simp only [noPair, Bool.and_eq_true, Bool.not_eq_true'] at hnp
          have := hnp.1
          rw [ha] at this
          simpa using this
        rw [show collapseErs (a :: b :: rest) = '.' :: collapseErs (b :: rest) from by
          simp [collapseErs, ha, hb]]
        rw [ih hgt hnpt, goodOut_ers_eq_dot (hg a (by simp)) ha]
      · rw [show collapseErs (a :: b :: rest) = a :: collapseErs (b :: rest) from by
          simp [collapseErs, ha]]
        rw [ih hgt hnpt]

/-- The space-collapsing pass is the identity on texts with no adjacent
spaces. -/
theorem collapseSpaces_id (t : List Char) (hnp : noPair isSp t = true) :
    collapseSpaces t = t := by
  induction t with
  | nil => rfl
  | cons a l ih =>
    cases l with
    | nil => simp [collapseSpaces]
    | cons b rest =>
      have hab : (a == ' ' && b == ' ') = false := by
        simp only [noPair, Bool.and_eq_true, Bool.not_eq_true'] at hnp
        simpa [isSp] using hnp.1
      rw [show collapseSpaces (a :: b :: rest) = a :: collapseSpaces (b :: rest) from by
        simp [collapseSpaces, hab]]
      rw [ih (noPair_tail hnp)]

/-- Texts over the output set contain no brackets and no parentheses. -/
theorem goodOut_not_bracket {t : List Char}
    (hg : ∀ c ∈ t, goodOut c = true) : '[' ∉ t ∧ '(' ∉ t :=
  ⟨fun h => absurd (hg _ h) (by decide), fun h => absurd (hg _ h) (by decide)⟩

/-- The output of `normalize` has no adjacent sentence terminators. -/
theorem normalize_noPair_ers (t : List Char) :
    noPair isErs (normalize t) = true :=
  collapseSpaces_noPair_preserve _ (collapseErs_noPair _)

/-- The output of `normalize` has no adjacent spaces. -/
theorem normalize_noPair_sp (t : List Char) :
    noPair isSp (normalize t) = true :=
  collapseSpaces_noPair_sp _

/-- C6: normalization is idempotent — a second pass finds no citation or
reference patterns (no brackets or parentheses survive the filter), only
allowed characters, no runs of terminators and no runs of spaces, so every
pass is the identity. -/
theorem c6_normalize_idempotent (t : List Char) :
    normalize (normalize t) = normalize t := by
  have hg := normalize_goodOut t
  obtain ⟨hnb, hnp⟩ := goodOut_not_bracket hg
  have h1 : remove_citing (normalize t) = normalize t :=
    removeCitingF_id _ _ (hasBracketRun_eq_false _ hnb) (hasParenRun_eq_false _ hnp)
  have h2 : remove_refs (normalize t) = normalize t := removeRefsF_id _ _ hnp
  have h3 : charFilter (normalize t) = normalize t := charFilter_id _ hg
  have h4 : collapseErs (normalize t) = normalize t :=
    collapseErs_id _ hg (normalize_noPair_ers t)
  have h5 : collapseSpaces (normalize t) = normalize t :=
    collapseSpaces_id _ (normalize_noPair_sp t)
  have e : ∀ x : List Char,
      normalize x = collapseSpaces (collapseErs (charFilter (remove_refs (remove_citing x)))) :=
    fun _ => rfl
  rw [e (normalize t), h1, h2, h3, h4, h5]

end Scrub
